import Mathlib

/-!
Verification development for the sabl context library (TypeScript).

The embedding covers two layers of the source:

1. `src/canceler.ts`: the error taxonomy (`CanceledError`, `DeadlineError`,
   their `is` / `create` operations) and the `Canceler` firing protocol
   (`onCancel`, `off`, the private `#cancel` with its reentrant drain loop).
   The drain protocol is modelled as a fueled small-step interpreter over a
   single canceler state, with callbacks given as scripts of effects.

2. `src/context.ts`: the immutable context node chain (`value` lookup,
   `canceler` lookup) and the cascading-cancellation drivers `withCancel`
   and `withDeadline`, modelled over a world holding the mutable cancelers,
   the callback registry and the armed timers.

JavaScript values relevant to the library are modelled by `JSVal`; object
identity of error values is rendered structurally (two distinct error
allocations with the same fields are equal in the model, which is adequate
for every claim treated here). Machine time is passed explicitly as integer
milliseconds.
-/

/-- Model of the JavaScript values the library manipulates: undefined, null,
primitives, dates, plain objects (with the two decoration symbol flags) and
Error objects carrying name, message, cause and the two decoration flags. -/
inductive JSVal where
  | undefv
  | null
  | boolv (b : Bool)
  | numv (n : Int)
  | strv (s : String)
  | dateObj (ms : Int)
  | plainObj (id : Nat) (cFlag dFlag : Bool)
  | errObj (name msg : String) (cause : JSVal) (cFlag dFlag : Bool)
deriving DecidableEq, Repr

namespace JSVal

/-- JavaScript typeof v === "object"; true for null as well. -/
def typeofObject : JSVal → Bool
  | .null => true
  | .dateObj _ => true
  | .plainObj _ _ _ => true
  | .errObj _ _ _ _ _ => true
  | _ => false

/-- JavaScript v instanceof Error. -/
def isErrorInstance : JSVal → Bool
  | .errObj _ _ _ _ _ => true
  | _ => false

/-- JavaScript typeof v === "string". -/
def isStringVal : JSVal → Bool
  | .strv _ => true
  | _ => false

/-- JavaScript loose equality v == null, true for undefined and null. -/
def looseNull : JSVal → Bool
  | .undefv => true
  | .null => true
  | _ => false

/-- The SymErrCanceled decoration flag of a value, false on non-objects. -/
def cancFlag : JSVal → Bool
  | .plainObj _ c _ => c
  | .errObj _ _ _ c _ => c
  | _ => false

/-- The SymErrDeadline decoration flag of a value, false on non-objects. -/
def dlFlag : JSVal → Bool
  | .plainObj _ _ d => d
  | .errObj _ _ _ _ d => d
  | _ => false

end JSVal

namespace CanceledError

/-- CanceledError.is from src/canceler.ts: null check, object check, then
the SymErrCanceled flag. Dates cannot carry the flag in this model, which
is adequate for the claims treated here. -/
def is (reason : JSVal) : Bool :=
  if reason.looseNull then false
  else if !reason.typeofObject then false
  else reason.cancFlag

/-- The value new CanceledError(message, options) with an explicit cause,
after the message || default normalization of the constructor. -/
def mkErr (msg : String) (cause : JSVal) : JSVal :=
  .errObj "CanceledError" (if msg = "" then "Operation was canceled" else msg) cause true false

/-- CanceledError.create from src/canceler.ts. Returns none where the
source throws (non-object, non-string, non-null input). -/
def create (reason : JSVal) : Option JSVal :=
  if is reason && reason.isErrorInstance then some reason
  else if reason.typeofObject then some (mkErr "" reason)
  else if reason.isStringVal then
    match reason with
    | .strv s => some (mkErr s .undefv)
    | _ => none
  else if reason.looseNull then some (mkErr "" .undefv)
  else none

end CanceledError

namespace DeadlineError

/-- DeadlineError.is from src/canceler.ts: CanceledError.is plus the
SymErrDeadline flag. -/
def is (reason : JSVal) : Bool :=
  CanceledError.is reason && reason.dlFlag

/-- The value new DeadlineError(message, options) with an explicit cause. -/
def mkErr (msg : String) (cause : JSVal) : JSVal :=
  .errObj "DeadlineError" (if msg = "" then "Context deadline was exceeded" else msg) cause true true

/-- DeadlineError.create from src/canceler.ts. Returns none where the
source throws. -/
def create (reason : JSVal) : Option JSVal :=
  if is reason && reason.isErrorInstance then some reason
  else if reason.typeofObject then some (mkErr "" reason)
  else if reason.isStringVal then
    match reason with
    | .strv s => some (mkErr s .undefv)
    | _ => none
  else if reason.looseNull then some (mkErr "" .undefv)
  else none

end DeadlineError

/-- The mutable state of one Canceler from src/canceler.ts: the ordered
callback set (callback identities as naturals, insertion order kept, no
duplicates, mirroring a JavaScript Set), the canceled and canceling flags
and the captured error. -/
structure CancState where
  callbacks : List Nat
  canceled : Bool
  canceling : Bool
  err : Option JSVal
deriving DecidableEq, Repr

namespace Canceler

/-- A fresh Canceler as produced by Canceler.create(). -/
def fresh : CancState := ⟨[], false, false, none⟩

/-- Canceler.size: the count of registered callbacks. -/
def size (c : CancState) : Nat := c.callbacks.length

/-- JavaScript Set.add on the ordered callback set: appending iff the
element is not already present. -/
def addCallback (c : CancState) (cb : Nat) : CancState :=
  if cb ∈ c.callbacks then c else { c with callbacks := c.callbacks ++ [cb] }

/-- Canceler.off: JavaScript Set.delete of one callback. -/
def off (c : CancState) (cb : Nat) : CancState :=
  { c with callbacks := c.callbacks.erase cb }

end Canceler

/-- One effect a registered callback may perform on its own Canceler when
invoked: register another callback, unregister one, or call the cancel
function again (reentrantly). -/
inductive Act where
  | register (cb : Nat)
  | unregister (cb : Nat)
  | recancel (reason : JSVal)
deriving DecidableEq, Repr

/-- Observable event of a Canceler run: a callback was effectively added to
the pending set, or a callback was invoked with the given error argument. -/
inductive Ev where
  | reg (cb : Nat)
  | inv (cb : Nat) (err : Option JSVal)
deriving DecidableEq, Repr

/-- Pending work items of the single-canceler interpreter, mirroring the
operations of src/canceler.ts: running a script, invoking one callback,
onCancel, off, the private cancel, and the drain loop of cancel. -/
inductive Cmd where
  | acts (l : List Act)
  | invoke (cb : Nat)
  | onCancel (cb : Nat)
  | off (cb : Nat)
  | cancel (reason : JSVal)
  | drain
deriving DecidableEq, Repr

/-- The command a script effect maps to. -/
def actCmd : Act → Cmd
  | .register cb => .onCancel cb
  | .unregister cb => .off cb
  | .recancel r => .cancel r

/-- Callback environment: script of the callback with the given identity,
defaulting to the empty script (a pure observer). -/
def envGet (env : List (List Act)) (cb : Nat) : List Act :=
  match env.get? cb with
  | some l => l
  | none => []

/-- Fueled interpreter for one Canceler, a direct translation of
src/canceler.ts. onCancel invokes immediately when canceled and not
canceling, otherwise Set-adds. cancel is a no-op when already canceled;
otherwise it sets canceled and canceling, captures CanceledError.create of
the reason, drains the pending set to exhaustion (pop from the front,
invoke with the captured error, repeat, tolerating appends while
draining), then clears canceling. Returns none when out of fuel or when
CanceledError.create would throw. -/
def exec : Nat → List (List Act) → Cmd → CancState → Option (CancState × List Ev)
  | 0, _, _, _ => none
  | fuel + 1, env, cmd, st =>
    match cmd with
    | .onCancel cb =>
      if st.canceled && !st.canceling then
        exec fuel env (.invoke cb) st
      else if cb ∈ st.callbacks then some (st, [])
      else some ({ st with callbacks := st.callbacks ++ [cb] }, [.reg cb])
    | .off cb => some (Canceler.off st cb, [])
    | .invoke cb =>
      match exec fuel env (.acts (envGet env cb)) st with
      | none => none
      | some (st2, tr) => some (st2, .inv cb st.err :: tr)
    | .acts [] => some (st, [])
    | .acts (a :: l) =>
      match exec fuel env (actCmd a) st with
      | none => none
      | some (st1, tr1) =>
        match exec fuel env (.acts l) st1 with
        | none => none
        | some (st2, tr2) => some (st2, tr1 ++ tr2)
    | .cancel r =>
      if st.canceled then some (st, [])
      else
        match CanceledError.create r with
        | none => none
        | some e =>
          match exec fuel env .drain { st with canceled := true, canceling := true, err := some e } with
          | none => none
          | some (st2, tr) => some ({ st2 with canceling := false }, tr)
    | .drain =>
      match st.callbacks with
      | [] => some (st, [])
      | cb :: rest =>
        match exec fuel env (.invoke cb) { st with callbacks := rest } with
        | none => none
        | some (st1, tr1) =>
          match exec fuel env .drain st1 with
          | none => none
          | some (st2, tr2) => some (st2, tr1 ++ tr2)

/-- The callbacks invoked during a run, in order. -/
def invProj (tr : List Ev) : List Nat :=
  tr.filterMap fun e => match e with | .inv cb _ => some cb | _ => none

/-- The callbacks effectively appended to the pending set during a run, in
order. -/
def regProj (tr : List Ev) : List Nat :=
  tr.filterMap fun e => match e with | .reg cb => some cb | _ => none

/-- Whether a script effect is not an unregistration. -/
def actOk : Act → Bool
  | .unregister _ => false
  | _ => true

/-- Environments whose scripts never unregister callbacks. -/
def offFreeEnv (env : List (List Act)) : Bool :=
  env.all fun l => l.all actOk

/-- Commands that can arise while running scripts inside a drain, given an
off-free environment. -/
def cmdOk : Cmd → Bool
  | .acts l => l.all actOk
  | .onCancel _ => true
  | .cancel _ => true
  | .invoke _ => true
  | _ => false

/-- The callbacks a command invokes directly (not through the queue). -/
def cmdInv : Cmd → List Nat
  | .invoke cb => [cb]
  | _ => []

/-- A context value key from src/context.ts: a symbol (by identity) or a
string. -/
inductive Key where
  | symKey (id : Nat)
  | strKey (s : String)
deriving DecidableEq, Repr

/-- The reserved module-private symbol ctxKeyDeadline of src/context.ts. -/
def ctxKeyDeadline : Key := .symKey 0

/-- Immutable context node chain from src/context.ts. nullCtx renders a
null parent reference; base is the plain Context class (display name
omitted, it is diagnostics only); valueNode is ValueContext; cancelNode is
CancelContext holding the identity of its owned Canceler in the world. -/
inductive Ctx where
  | nullCtx
  | base (parent : Ctx)
  | valueNode (key : Key) (val : JSVal) (parent : Ctx)
  | cancelNode (clr : Nat) (parent : Ctx)
deriving DecidableEq, Repr

namespace Ctx

/-- Context.value and ValueContext.value: own payload first, then the
parent chain; undefined once the chain is exhausted (the nullCtx case
renders the null-parent check of the source). -/
def value : Ctx → Key → JSVal
  | .nullCtx, _ => .undefv
  | .base p, k => p.value k
  | .valueNode key v p, k => if k = key then v else p.value k
  | .cancelNode _ p, k => p.value k

/-- Context.canceler and CancelContext.canceler: the nearest owned
Canceler up the chain, none when there is no cancelable ancestor. -/
def canceler : Ctx → Option Nat
  | .nullCtx => none
  | .base p => p.canceler
  | .valueNode _ _ p => p.canceler
  | .cancelNode clr _ => some clr

end Ctx

/-- withValue from src/context.ts: a new ValueContext child, never a
mutation. -/
def withValue (ctx : Ctx) (key : Key) (v : JSVal) : Ctx :=
  .valueNode key v ctx

/-- The cancel functions returned by the construction operations of
src/context.ts: the no-op, the raw bound cancel of a Canceler (passes its
reason through), the withCancel wrapper (unregisters the cascade callback
from the parent then fires, discarding its reason argument), and the two
withDeadline variants which additionally clear the pending timer. -/
inductive CFn where
  | noop
  | plain (clr : Nat)
  | wrapped (parentClr : Nat) (cfnCb : Nat) (clr : Nat)
  | dlDirect (timer : Nat) (clr : Nat)
  | dlWrapped (parentClr : Nat) (cacCb : Nat) (timer : Nat) (clr : Nat)
deriving DecidableEq, Repr

/-- The closures src/context.ts registers as cancellation callbacks:
the raw cancel function of a child Canceler (the withCancel cascade), and
the clearAndCancel closure of withDeadline which clears the timer and then
fires the child with no reason (exactly as written in the source, which
discards the incoming reason argument). -/
inductive CbBody where
  | cfnOf (clr : Nat)
  | clearAndCancel (timer : Nat) (clr : Nat)
deriving DecidableEq, Repr

/-- An armed timeout: whether clearTimeout was called (or the timer
already ran), and the scheduled cancel function. -/
structure Timer where
  cleared : Bool
  action : CFn
deriving DecidableEq, Repr

/-- The mutable world behind a context tree: the Canceler states, the
registry of callback closures, and the armed timers, each addressed by
position. -/
structure World where
  cancs : List CancState
  cbs : List CbBody
  timers : List Timer
deriving DecidableEq, Repr

namespace World

/-- Replace the state of one canceler. -/
def setCanc (w : World) (i : Nat) (c : CancState) : World :=
  { w with cancs := w.cancs.set i c }

/-- parentClr.onCancel(cb) as used during construction, where the parent
is known not to be canceled: the JavaScript Set add. -/
def addCallbackAt (w : World) (i : Nat) (cb : Nat) : World :=
  match w.cancs[i]? with
  | some c => w.setCanc i (Canceler.addCallback c cb)
  | none => w

/-- parentClr.off(cb): Set delete on one canceler. -/
def offAt (w : World) (i : Nat) (cb : Nat) : World :=
  match w.cancs[i]? with
  | some c => w.setCanc i (Canceler.off c cb)
  | none => w

/-- clearTimeout on a stored token; a no-op on an unknown token. -/
def clearTimer (w : World) (t : Nat) : World :=
  match w.timers[t]? with
  | some tm => { w with timers := w.timers.set t { tm with cleared := true } }
  | none => w

/-- Whether the canceler owned by the given context (if any) is canceled;
Context.canceled of the source. -/
def ctxCanceled (w : World) (ctx : Ctx) : Bool :=
  match ctx.canceler with
  | some i =>
    match w.cancs[i]? with
    | some c => c.canceled
    | none => false
  | none => false

end World

/-- World-level work items: invoking a registered callback closure with an
error argument, the private cancel of one Canceler, its drain loop,
running a returned cancel function with a reason, and the elapse of one
timer. -/
inductive WCmd where
  | winvoke (cb : Nat) (arg : JSVal)
  | wcancel (clr : Nat) (reason : JSVal)
  | wdrain (clr : Nat)
  | wrunCFn (f : CFn) (reason : JSVal)
  | wtimer (t : Nat)
deriving DecidableEq, Repr

/-- Fueled world interpreter. wcancel and wdrain translate the private
cancel of src/canceler.ts exactly as in the single-canceler model;
winvoke dispatches on the registered closure (the withCancel cascade
passes the received cause through to the child cancel, the withDeadline
clearAndCancel closure clears the timer and fires the child with no
reason, as the source does); wrunCFn runs a returned cancel function;
wtimer fires an armed, uncleared timer with no arguments, as setTimeout
does. -/
def wexec : Nat → WCmd → World → Option World
  | 0, _, _ => none
  | fuel + 1, cmd, w =>
    match cmd with
    | .winvoke cb arg =>
      match w.cbs[cb]? with
      | none => none
      | some (.cfnOf clr) => wexec fuel (.wcancel clr arg) w
      | some (.clearAndCancel t clr) => wexec fuel (.wcancel clr .undefv) (w.clearTimer t)
    | .wcancel clr reason =>
      match w.cancs[clr]? with
      | none => none
      | some c =>
        if c.canceled then some w
        else
          match CanceledError.create reason with
          | none => none
          | some e =>
            match wexec fuel (.wdrain clr) (w.setCanc clr { c with canceled := true, canceling := true, err := some e }) with
            | none => none
            | some w2 =>
              match w2.cancs[clr]? with
              | none => none
              | some c2 => some (w2.setCanc clr { c2 with canceling := false })
    | .wdrain clr =>
      match w.cancs[clr]? with
      | none => none
      | some c =>
        match c.callbacks with
        | [] => some w
        | cb :: rest =>
          match wexec fuel (.winvoke cb (c.err.getD .undefv)) (w.setCanc clr { c with callbacks := rest }) with
          | none => none
          | some w1 => wexec fuel (.wdrain clr) w1
    | .wrunCFn f reason =>
      match f with
      | .noop => some w
      | .plain clr => wexec fuel (.wcancel clr reason) w
      | .wrapped p cfnCb clr => wexec fuel (.wcancel clr .undefv) (w.offAt p cfnCb)
      | .dlDirect t clr => wexec fuel (.wcancel clr .undefv) (w.clearTimer t)
      | .dlWrapped p cac t clr => wexec fuel (.wcancel clr .undefv) ((w.offAt p cac).clearTimer t)
    | .wtimer t =>
      match w.timers[t]? with
      | none => none
      | some tm =>
        if tm.cleared then some w
        else wexec fuel (.wrunCFn tm.action .undefv) (w.clearTimer t)

/-- withCancel from src/context.ts. With a fired parent canceler it
short-circuits to the parent context and a no-op cancel function;
otherwise it creates a fresh Canceler wrapped in a CancelContext child
and, when the parent has a (necessarily unfired) Canceler, registers the
raw child cancel on it as the cascade and wraps the returned cancel
function to unregister that cascade first. nullCtx renders the null
argument used by Context.cancel. -/
def withCancel (w : World) (ctx : Ctx) : Ctx × CFn × World :=
  match ctx.canceler with
  | some p =>
    match w.cancs[p]? with
    | some pc =>
      if pc.canceled then (ctx, .noop, w)
      else
        let clr := w.cancs.length
        let w1 := { w with cancs := w.cancs ++ [Canceler.fresh] }
        let cfnCb := w1.cbs.length
        let w2 := { w1 with cbs := w1.cbs ++ [CbBody.cfnOf clr] }
        (Ctx.cancelNode clr ctx, .wrapped p cfnCb clr, w2.addCallbackAt p cfnCb)
    | none =>
      let clr := w.cancs.length
      (Ctx.cancelNode clr ctx, .plain clr, { w with cancs := w.cancs ++ [Canceler.fresh] })
  | none =>
    let clr := w.cancs.length
    (Ctx.cancelNode clr ctx, .plain clr, { w with cancs := w.cancs ++ [Canceler.fresh] })

/-- getDeadline from src/context.ts: the value stored under the reserved
deadline key. -/
def getDeadline (ctx : Ctx) : JSVal :=
  ctx.value ctxKeyDeadline

/-- withDeadline from src/context.ts, with machine time passed explicitly
in milliseconds. Short-circuits on a fired parent canceler; degrades to
withCancel when the chain already holds a strictly earlier deadline (a
non-date under the reserved key coerces to NaN in the source and every
NaN comparison is false, hence the false arm); otherwise wraps the parent
in a deadline value node plus a CancelContext, fires immediately with no
reason when the deadline already passed (exactly as the source, which
calls its cancel function with no argument), or arms a timer scheduling
the returned cancel function and registers the clearAndCancel cascade on
the parent canceler when there is one. -/
def withDeadline (fuel : Nat) (w : World) (ctx : Ctx) (deadlineMs nowMs : Int) : Option (Ctx × CFn × World) :=
  if w.ctxCanceled ctx then some (ctx, .noop, w)
  else
    let redundant :=
      match getDeadline ctx with
      | .dateObj ms => decide (ms < deadlineMs)
      | _ => false
    if redundant then some (withCancel w ctx)
    else
      let clr := w.cancs.length
      let w1 := { w with cancs := w.cancs ++ [Canceler.fresh] }
      let cancelCtx := Ctx.cancelNode clr (Ctx.valueNode ctxKeyDeadline (.dateObj deadlineMs) ctx)
      if deadlineMs < nowMs then
        match wexec fuel (.wcancel clr .undefv) w1 with
        | none => none
        | some w2 => some (cancelCtx, .plain clr, w2)
      else
        let t := w1.timers.length
        match ctx.canceler with
        | some p =>
          let cac := w1.cbs.length
          let w2 := { w1 with cbs := w1.cbs ++ [CbBody.clearAndCancel t clr] }
          let w3 := w2.addCallbackAt p cac
          let cf := CFn.dlWrapped p cac t clr
          some (cancelCtx, cf, { w3 with timers := w3.timers ++ [Timer.mk false cf] })
        | none =>
          let cf := CFn.dlDirect t clr
          some (cancelCtx, cf, { w1 with timers := w1.timers ++ [Timer.mk false cf] })

/-- Well-formed worlds: every callback identity held by a canceler points
into the callback registry. -/
def wfWorld (w : World) : Bool :=
  w.cancs.all fun c => c.callbacks.all fun cb => cb < w.cbs.length

/-- The chain of key and value writes of a context, childmost first. -/
def chainWrites : Ctx → List (Key × JSVal)
  | .nullCtx => []
  | .base p => chainWrites p
  | .valueNode k v p => (k, v) :: chainWrites p
  | .cancelNode _ p => chainWrites p

/-- Lookup as the specification words it: the nearest (child-side) write
of the key wins, and a chain with no write of the key reads as absent
(undefined). Stated from the spec for comparison with Ctx.value. -/
def nearestWriteValue (c : Ctx) (k : Key) : JSVal :=
  match (chainWrites c).find? (fun e => e.1 = k) with
  | some e => e.2
  | none => .undefv

/-- The empty world. -/
def w0 : World := ⟨[], [], []⟩

/-- Context.background: the root context with no parent. -/
def background : Ctx := .base .nullCtx

/-- One create-then-cancel cycle of a child under the given parent
context: build the child with withCancel, then immediately run the
returned cancel function (the child has no listeners of its own, so three
steps of fuel always complete the run). -/
def cycleOnce (ctx : Ctx) (w : World) : Option World :=
  let r := withCancel w ctx
  wexec 3 (.wrunCFn r.2.1 .undefv) r.2.2

/-- Iterated create-then-cancel cycles. -/
def cycleN (ctx : Ctx) : Nat → World → Option World
  | 0, w => some w
  | n + 1, w =>
    match cycleOnce ctx w with
    | none => none
    | some w1 => cycleN ctx n w1

/-- Once a Canceler is canceled it stays canceled and its captured error
is never rewritten, whatever work runs on it. -/
theorem exec_fired_preserved : ∀ (fuel : Nat) (env : List (List Act)) (cmd : Cmd)
    (st st' : CancState) (tr : List Ev),
    exec fuel env cmd st = some (st', tr) → st.canceled = true →
    st'.canceled = true ∧ st'.err = st.err := by
  intro fuel
  induction fuel with
  | zero => intro env cmd st st' tr h; simp [exec] at h
  | succ n ih =>
    intro env cmd st st' tr h hc
    cases cmd with
    | onCancel cb =>
      simp only [exec] at h
      split at h
      · exact ih _ _ _ _ _ h hc
      · split at h <;> (cases h; exact ⟨hc, rfl⟩)
    | off cb =>
      simp only [exec] at h
      cases h
      exact ⟨hc, rfl⟩
    | invoke cb =>
      simp only [exec] at h
      split at h
      · cases h
      · rename_i st2 tr2 hrec
        cases h
        exact ih _ _ _ _ _ hrec hc
    | acts l =>
      cases l with
      | nil =>
        simp only [exec] at h
        cases h
        exact ⟨hc, rfl⟩
      | cons a t =>
        simp only [exec] at h
        split at h
        · cases h
        · rename_i st1 tr1 h1
          split at h
          · cases h
          · rename_i st2 tr2 h2
            cases h
            obtain ⟨hca, hea⟩ := ih _ _ _ _ _ h1 hc
            obtain ⟨hcb, heb⟩ := ih _ _ _ _ _ h2 hca
            exact ⟨hcb, heb.trans hea⟩
    | cancel r =>
      simp only [exec] at h
      split at h
      · cases h
        exact ⟨hc, rfl⟩
      · rename_i hn
        exact absurd hc hn
    | drain =>
      simp only [exec] at h
      split at h
      · cases h
        exact ⟨hc, rfl⟩
      · rename_i cb rest hcb
        split at h
        · cases h
        · rename_i st1 tr1 h1
          split at h
          · cases h
          · rename_i st2 tr2 h2
            cases h
            obtain ⟨hca, hea⟩ := ih _ _ _ _ _ h1 hc
            obtain ⟨hcb2, heb⟩ := ih _ _ _ _ _ h2 hca
            exact ⟨hcb2, heb.trans hea⟩

/-- In an off-free environment every script is off-free, including the
default empty script. -/
theorem envGet_actOk (env : List (List Act)) (cb : Nat) (he : offFreeEnv env = true) :
    (envGet env cb).all actOk = true := by
  unfold envGet
  cases hg : env.get? cb with
  | none => simp
  | some l =>
    have hm : l ∈ env := List.get?_mem hg
    exact (List.all_eq_true.mp he) l hm

/-- While a Canceler is draining, any work arising from scripts of an
off-free environment only appends to the tail of the pending set, logs
exactly those appends, invokes nothing beyond an explicitly invoked
callback, and leaves the flags and the captured error alone. -/
theorem exec_script_phase : ∀ (fuel : Nat) (env : List (List Act)) (cmd : Cmd)
    (st st' : CancState) (tr : List Ev),
    offFreeEnv env = true → cmdOk cmd = true →
    st.canceled = true → st.canceling = true →
    exec fuel env cmd st = some (st', tr) →
    st'.callbacks = st.callbacks ++ regProj tr ∧ st'.canceled = true ∧
      st'.canceling = true ∧ st'.err = st.err ∧ invProj tr = cmdInv cmd := by
  intro fuel
  induction fuel with
  | zero => intro env cmd st st' tr _ _ _ _ h; simp [exec] at h
  | succ n ih =>
    intro env cmd st st' tr he hok hc hg h
    cases cmd with
    | onCancel cb =>
      simp only [exec] at h
      split at h
      · rename_i hcond
        rw [hc, hg] at hcond
        simp at hcond
      · split at h
        · cases h
          simp [regProj, invProj, cmdInv, hc, hg]
        · cases h
          simp [regProj, invProj, cmdInv, hc, hg]
    | off cb => simp [cmdOk] at hok
    | invoke cb =>
      simp only [exec] at h
      split at h
      · cases h
      · rename_i st2 tr2 hrec
        cases h
        have hin : cmdOk (.acts (envGet env cb)) = true := envGet_actOk env cb he
        obtain ⟨h1, h2, h3, h4, h5⟩ := ih env _ st _ _ he hin hc hg hrec
        have h5e : invProj tr2 = [] := by simpa [cmdInv] using h5
        refine ⟨?_, h2, h3, h4, ?_⟩
        · simpa [regProj] using h1
        · simp [invProj, cmdInv] at h5e ⊢
          exact h5e
    | acts l =>
      cases l with
      | nil =>
        simp only [exec] at h
        cases h
        simp [regProj, invProj, cmdInv, hc, hg]
      | cons a t =>
        simp only [cmdOk, List.all_cons, Bool.and_eq_true] at hok
        obtain ⟨hoka, hokt⟩ := hok
        simp only [exec] at h
        split at h
        · cases h
        · rename_i st1 tr1 h1
          split at h
          · cases h
          · rename_i st2 tr2 h2
            cases h
            have hoka2 : cmdOk (actCmd a) = true := by
              cases a with
              | register cb => simp [actCmd, cmdOk]
              | unregister cb => simp [actOk] at hoka
              | recancel r => simp [actCmd, cmdOk]
            obtain ⟨h1a, h2a, h3a, h4a, h5a⟩ := ih env _ st _ _ he hoka2 hc hg h1
            obtain ⟨h1b, h2b, h3b, h4b, h5b⟩ :=
              ih env (.acts t) st1 _ _ he (by simpa [cmdOk] using hokt) h2a h3a h2
            have hia : invProj tr1 = [] := by
              cases a with
              | register cb => simpa [actCmd, cmdInv] using h5a
              | unregister cb => simp [actOk] at hoka
              | recancel r => simpa [actCmd, cmdInv] using h5a
            have hib : invProj tr2 = [] := by simpa [cmdInv] using h5b
            refine ⟨?_, h2b, h3b, h4b.trans h4a, ?_⟩
            · rw [h1b, h1a]
              rw [regProj, regProj, regProj, List.filterMap_append, List.append_assoc]
            · rw [invProj, List.filterMap_append]
              rw [invProj] at hia hib
              simp [hia, hib, cmdInv]
    | cancel r =>
      simp only [exec] at h
      split at h
      · cases h
        simp [regProj, invProj, cmdInv, hc, hg]
      · rename_i hn
        exact absurd hc hn
    | drain => simp [cmdOk] at hok

/-- The invocation projection distributes over trace concatenation. -/
theorem invProj_append (a b : List Ev) : invProj (a ++ b) = invProj a ++ invProj b :=
  List.filterMap_append a b _

/-- The registration projection distributes over trace concatenation. -/
theorem regProj_append (a b : List Ev) : regProj (a ++ b) = regProj a ++ regProj b :=
  List.filterMap_append a b _

/-- The drain loop of cancel, in an off-free environment: it empties the
pending set, preserves the flags and the captured error, and the
callbacks invoked are exactly the pending ones followed, in order, by
every callback appended while draining. -/
theorem exec_drain_fifo : ∀ (fuel : Nat) (env : List (List Act))
    (st st' : CancState) (tr : List Ev),
    offFreeEnv env = true → st.canceled = true → st.canceling = true →
    exec fuel env .drain st = some (st', tr) →
    st'.callbacks = [] ∧ st'.canceled = true ∧ st'.canceling = true ∧
      st'.err = st.err ∧ invProj tr = st.callbacks ++ regProj tr := by
  intro fuel
  induction fuel with
  | zero => intro env st st' tr _ _ _ h; simp [exec] at h
  | succ n ih =>
    intro env st st' tr he hc hg h
    simp only [exec] at h
    split at h
    · rename_i hcb
      cases h
      simp [hcb, regProj, invProj, hc, hg]
    · rename_i cb rest hcb
      split at h
      · cases h
      · rename_i st1 tr1 h1
        split at h
        · cases h
        · rename_i st2 tr2 h2
          cases h
          obtain ⟨h1a, h2a, h3a, h4a, h5a⟩ :=
            exec_script_phase n env (.invoke cb) { st with callbacks := rest } _ _ he rfl hc hg h1
          obtain ⟨h1b, h2b, h3b, h4b, h5b⟩ := ih env st1 _ _ he h2a h3a h2
          refine ⟨h1b, h2b, h3b, h4b.trans h4a, ?_⟩
          rw [invProj_append, regProj_append, h5a, h5b, h1a, hcb]
          simp [cmdInv]

/-- A first, successful cancel of a not-yet-canceled Canceler in an
off-free environment: it drains the pending set completely, ends with
canceled set and canceling cleared, captures CanceledError.create of the
reason as the error, and invokes exactly the pending callbacks followed
in order by those appended during the drain. -/
theorem exec_cancel_run : ∀ (fuel : Nat) (env : List (List Act)) (r : JSVal)
    (st st' : CancState) (tr : List Ev),
    offFreeEnv env = true → st.canceled = false →
    exec fuel env (.cancel r) st = some (st', tr) →
    st'.callbacks = [] ∧ st'.canceled = true ∧ st'.canceling = false ∧
      (∃ e, CanceledError.create r = some e ∧ st'.err = some e) ∧
      invProj tr = st.callbacks ++ regProj tr := by
  intro fuel env r st st' tr he hc h
  cases fuel with
  | zero => simp [exec] at h
  | succ n =>
    simp only [exec] at h
    split at h
    · rename_i ht
      rw [hc] at ht
      cases ht
    · split at h
      · cases h
      · rename_i e hce
        split at h
        · cases h
        · rename_i st2 tr2 h2
          cases h
          obtain ⟨h1b, h2b, h3b, h4b, h5b⟩ :=
            exec_drain_fifo n env { st with canceled := true, canceling := true, err := some e } _ _ he rfl rfl h2
          exact ⟨h1b, h2b, rfl, ⟨e, hce, h4b⟩, h5b⟩

/-- Invoking a pure observer callback changes nothing and logs exactly its
invocation with the current captured error. -/
theorem exec_invoke_observer : ∀ (n : Nat) (st st1 : CancState) (tr1 : List Ev) (cb : Nat),
    exec n [] (.invoke cb) st = some (st1, tr1) →
    st1 = st ∧ tr1 = [Ev.inv cb st.err] := by
  intro n st st1 tr1 cb h
  cases n with
  | zero => simp [exec] at h
  | succ m =>
    cases m with
    | zero => simp [exec, envGet] at h
    | succ k =>
      simp [exec, envGet] at h
      exact ⟨h.1.symm, h.2.symm⟩

/-- Draining with only observer callbacks: the pending set empties, the
flags and error stay, and the trace is exactly one invocation per pending
callback, in order, with the captured error. -/
theorem exec_drain_observers : ∀ (fuel : Nat) (st st' : CancState) (tr : List Ev),
    exec fuel [] .drain st = some (st', tr) →
    st'.callbacks = [] ∧ st'.canceled = st.canceled ∧ st'.canceling = st.canceling ∧
      st'.err = st.err ∧ tr = st.callbacks.map (fun c => Ev.inv c st.err) := by
  intro fuel
  induction fuel with
  | zero => intro st st' tr h; simp [exec] at h
  | succ n ih =>
    intro st st' tr h
    simp only [exec] at h
    split at h
    · rename_i hcb
      cases h
      simp [hcb]
    · rename_i cb rest hcb
      split at h
      · cases h
      · rename_i st1 tr1 h1
        split at h
        · cases h
        · rename_i st2 tr2 h2
          cases h
          obtain ⟨rfl, rfl⟩ := exec_invoke_observer n _ _ _ cb h1
          obtain ⟨h1b, h2b, h3b, h4b, h5b⟩ := ih _ _ _ h2
          refine ⟨h1b, h2b, h3b, h4b, ?_⟩
          rw [h5b, hcb]
          simp

/-- The invocation projection of a pure invocation trace lists exactly the
invoked callbacks. -/
theorem invProj_map_inv (l : List Nat) (e : Option JSVal) :
    invProj (l.map fun c => Ev.inv c e) = l := by
  induction l with
  | nil => rfl
  | cons a t ih => simp [invProj] at ih ⊢; exact ih

/-- Claim C2: registering on an already fired, not draining Canceler
invokes the callback synchronously exactly once with the captured cause
and does not retain it; registering in any other state only enqueues
(appending to the tail when the callback is new); and a full cancel run,
with callbacks free of unregistrations, invokes the pending callbacks in
first-registered order followed, in registration order, by every callback
registered during the drain (including transitively), leaving the pending
set empty when fire returns. -/
theorem canceler_register_semantics_and_fifo :
    (∀ (env : List (List Act)) (st : CancState) (cb fuel : Nat),
       st.canceled = true → st.canceling = false → envGet env cb = [] →
       exec (fuel + 3) env (.onCancel cb) st = some (st, [Ev.inv cb st.err]))
    ∧ (∀ (env : List (List Act)) (st : CancState) (cb fuel : Nat),
       st.canceled = false ∨ st.canceling = true →
       exec (fuel + 1) env (.onCancel cb) st =
         some (if cb ∈ st.callbacks then st
               else { st with callbacks := st.callbacks ++ [cb] },
               if cb ∈ st.callbacks then [] else [Ev.reg cb]))
    ∧ (∀ (env : List (List Act)) (r : JSVal) (st st' : CancState) (tr : List Ev) (fuel : Nat),
       offFreeEnv env = true → st.canceled = false →
       exec fuel env (.cancel r) st = some (st', tr) →
       invProj tr = st.callbacks ++ regProj tr ∧ st'.callbacks = []) := by
  refine ⟨?_, ?_, ?_⟩
  · intro env st cb fuel hc hg hev
    simp [exec, hc, hg, hev]
  · intro env st cb fuel hcond
    have hb : (st.canceled && !st.canceling) = false := by
      rcases hcond with h | h <;> simp [h]
    by_cases hm : cb ∈ st.callbacks <;> simp [exec, hb, hm]
  · intro env r st st' tr fuel he hc h
    obtain ⟨h1, _, _, _, h5⟩ := exec_cancel_run fuel env r st st' tr he hc h
    exact ⟨h5, h1⟩

/-- Concrete run of claim C2: an observer registered after firing runs at
once; a fresh registration enqueues; and the reentrant scenario of the
repository test suite (callback 1 registers callbacks 3 and 4 while
draining) fires 0, 1, 2, 3, 4 in order and empties the pending set. -/
theorem canceler_register_semantics_and_fifo_witness :
    exec 3 [] (.onCancel 5) ⟨[], true, false, some (.strv "e")⟩ =
      some (⟨[], true, false, some (.strv "e")⟩, [Ev.inv 5 (some (.strv "e"))])
    ∧ exec 1 [] (.onCancel 2) ⟨[1], false, false, none⟩ =
      some (⟨[1, 2], false, false, none⟩, [Ev.reg 2])
    ∧ (invProj [Ev.inv 0 (some (CanceledError.mkErr "" .undefv)),
          Ev.inv 1 (some (CanceledError.mkErr "" .undefv)), Ev.reg 3, Ev.reg 4,
          Ev.inv 2 (some (CanceledError.mkErr "" .undefv)),
          Ev.inv 3 (some (CanceledError.mkErr "" .undefv)),
          Ev.inv 4 (some (CanceledError.mkErr "" .undefv))] =
        [0, 1, 2] ++ regProj [Ev.inv 0 (some (CanceledError.mkErr "" .undefv)),
          Ev.inv 1 (some (CanceledError.mkErr "" .undefv)), Ev.reg 3, Ev.reg 4,
          Ev.inv 2 (some (CanceledError.mkErr "" .undefv)),
          Ev.inv 3 (some (CanceledError.mkErr "" .undefv)),
          Ev.inv 4 (some (CanceledError.mkErr "" .undefv))]
      ∧ (⟨[], true, false, some (CanceledError.mkErr "" .undefv)⟩ : CancState).callbacks = []) := by
  refine ⟨?_, ?_, ?_⟩
  · exact canceler_register_semantics_and_fifo.1 [] ⟨[], true, false, some (.strv "e")⟩ 5 0 rfl rfl rfl
  · have := canceler_register_semantics_and_fifo.2.1 [] ⟨[1], false, false, none⟩ 2 0 (Or.inl rfl)
    simpa using this
  · exact canceler_register_semantics_and_fifo.2.2 [[], [Act.register 3, Act.register 4], []]
      .undefv ⟨[0, 1, 2], false, false, none⟩ _ _ 50 (by decide) rfl rfl

/-- Claim C3: firing a Canceler is idempotent. A cancel call on an already
canceled Canceler (which includes any call made from within a callback
running during the first drain, since canceled is set before draining)
returns the state untouched and invokes nothing, whatever the reason; the
first successful cancel sets canceled and captures CanceledError.create of
its own reason as the error; hence a second cancel call right after a
first one, with any other reason, changes nothing and fires no callback,
leaving the cause fixed at the first fire. -/
theorem canceler_cancel_idempotent :
    (∀ (env : List (List Act)) (st : CancState) (r : JSVal) (fuel : Nat),
       st.canceled = true → exec (fuel + 1) env (.cancel r) st = some (st, []))
    ∧ (∀ (env : List (List Act)) (r : JSVal) (st st' : CancState) (tr : List Ev) (fuel : Nat),
       st.canceled = false → exec fuel env (.cancel r) st = some (st', tr) →
       st'.canceled = true ∧ ∃ e, CanceledError.create r = some e ∧ st'.err = some e)
    ∧ (∀ (env : List (List Act)) (r1 r2 : JSVal) (st st' : CancState) (tr : List Ev) (f1 f2 : Nat),
       st.canceled = false → exec f1 env (.cancel r1) st = some (st', tr) →
       exec (f2 + 1) env (.cancel r2) st' = some (st', [])) := by
  have hfreshrun : ∀ (env : List (List Act)) (r : JSVal) (st st' : CancState) (tr : List Ev) (fuel : Nat),
      st.canceled = false → exec fuel env (.cancel r) st = some (st', tr) →
      st'.canceled = true ∧ ∃ e, CanceledError.create r = some e ∧ st'.err = some e := by
    intro env r st st' tr fuel hc h
    cases fuel with
    | zero => simp [exec] at h
    | succ n =>
      simp only [exec] at h
      split at h
      · rename_i ht
        rw [hc] at ht
        cases ht
      · split at h
        · cases h
        · rename_i e hce
          split at h
          · cases h
          · rename_i st2 tr2 h2
            cases h
            obtain ⟨hcf, hef⟩ :=
              exec_fired_preserved n env .drain { st with canceled := true, canceling := true, err := some e } _ _ h2 rfl
            exact ⟨hcf, ⟨e, hce, hef⟩⟩
  have hnoop : ∀ (env : List (List Act)) (st : CancState) (r : JSVal) (fuel : Nat),
      st.canceled = true → exec (fuel + 1) env (.cancel r) st = some (st, []) := by
    intro env st r fuel hc
    simp [exec, hc]
  refine ⟨hnoop, hfreshrun, ?_⟩
  intro env r1 r2 st st' tr f1 f2 hc h1
  obtain ⟨hcf, _⟩ := hfreshrun env r1 st st' tr f1 hc h1
  exact hnoop env st' r2 f2 hcf

/-- Concrete run of claim C3: cancel on a fired state is exactly a no-op;
a first cancel with reason "x" captures CanceledError "x"; and a second
cancel with a different reason right after the first changes nothing. -/
theorem canceler_cancel_idempotent_witness :
    exec 4 [] (.cancel (.strv "later")) ⟨[], true, false, some (.strv "first")⟩ =
      some (⟨[], true, false, some (.strv "first")⟩, [])
    ∧ ((⟨[], true, false, some (CanceledError.mkErr "x" .undefv)⟩ : CancState).canceled = true
       ∧ ∃ e, CanceledError.create (.strv "x") = some e ∧
           (⟨[], true, false, some (CanceledError.mkErr "x" .undefv)⟩ : CancState).err = some e)
    ∧ exec 4 [] (.cancel (.strv "other"))
        ⟨[], true, false, some (CanceledError.mkErr "x" .undefv)⟩ =
      some (⟨[], true, false, some (CanceledError.mkErr "x" .undefv)⟩, []) := by
  refine ⟨?_, ?_, ?_⟩
  · exact canceler_cancel_idempotent.1 [] ⟨[], true, false, some (.strv "first")⟩ (.strv "later") 3 rfl
  · exact canceler_cancel_idempotent.2.1 [] (.strv "x") ⟨[], false, false, none⟩ _ [] 3 rfl rfl
  · exact canceler_cancel_idempotent.2.2 [] (.strv "x") (.strv "other")
      ⟨[], false, false, none⟩ _ [] 3 3 rfl rfl

/-- Claim C10: registering the same callback twice on a not-yet-fired
Canceler retains it once. The first registration appends it, the second
one leaves the state untouched and logs nothing, the reported size grows
by exactly one, and a later fire (with pure observer callbacks) invokes
it exactly once. -/
theorem canceler_register_dedup :
    ∀ (st : CancState) (cb fuel1 fuel2 : Nat),
      st.canceled = false → cb ∉ st.callbacks →
      exec (fuel1 + 1) [] (.onCancel cb) st =
        some ({ st with callbacks := st.callbacks ++ [cb] }, [Ev.reg cb])
      ∧ exec (fuel2 + 1) [] (.onCancel cb) { st with callbacks := st.callbacks ++ [cb] } =
        some ({ st with callbacks := st.callbacks ++ [cb] }, [])
      ∧ Canceler.size { st with callbacks := st.callbacks ++ [cb] } = Canceler.size st + 1
      ∧ (∀ (fuel : Nat) (r : JSVal) (st' : CancState) (tr : List Ev),
          exec fuel [] (.cancel r) { st with callbacks := st.callbacks ++ [cb] } = some (st', tr) →
          (invProj tr).count cb = 1) := by
  intro st cb fuel1 fuel2 hc hm
  have hb : (st.canceled && !st.canceling) = false := by simp [hc]
  refine ⟨by simp [exec, hb, hm], by simp [exec, hb], by simp [Canceler.size], ?_⟩
  intro fuel r st' tr h
  cases fuel with
  | zero => simp [exec] at h
  | succ n =>
    simp only [exec] at h
    split at h
    · rename_i ht
      rw [show ({ st with callbacks := st.callbacks ++ [cb] } : CancState).canceled = false from hc] at ht
      cases ht
    · split at h
      · cases h
      · rename_i e hce
        split at h
        · cases h
        · rename_i st2 tr2 h2
          cases h
          obtain ⟨_, _, _, _, htr⟩ := exec_drain_observers n _ _ _ h2
          rw [htr, invProj_map_inv]
          simp [List.count_append]
          exact List.count_eq_zero_of_not_mem hm

/-- Concrete run of claim C10: callback 0 registered twice on a fresh
Canceler is stored once, size is one, and a cancel fires it exactly
once. -/
theorem canceler_register_dedup_witness :
    exec 1 [] (.onCancel 0) ⟨[], false, false, none⟩ =
      some (⟨[0], false, false, none⟩, [Ev.reg 0])
    ∧ exec 1 [] (.onCancel 0) ⟨[0], false, false, none⟩ =
      some (⟨[0], false, false, none⟩, [])
    ∧ Canceler.size (⟨[0], false, false, none⟩ : CancState) = Canceler.size (⟨[], false, false, none⟩ : CancState) + 1
    ∧ (invProj [Ev.inv 0 (some (CanceledError.mkErr "" .undefv))]).count 0 = 1 := by
  obtain ⟨h1, h2, h3, h4⟩ :=
    canceler_register_dedup ⟨[], false, false, none⟩ 0 0 0 rfl (by simp)
  refine ⟨by simpa using h1, by simpa using h2, by simpa using h3, ?_⟩
  exact h4 4 .undefv _ _ rfl

/-- Claim C5: chain lookup agrees with the nearest-write reading of the
specification; a key never written anywhere in the chain reads as absent
(undefined); a child-side write is returned regardless of parent-side
writes of the same key; and a stored null comes back as null, distinct
from the absent result. -/
theorem ctx_value_chain_lookup :
    (∀ (c : Ctx) (k : Key), c.value k = nearestWriteValue c k)
    ∧ (∀ (c : Ctx) (k : Key), ((chainWrites c).all fun e => !decide (e.1 = k)) = true →
        c.value k = .undefv)
    ∧ (∀ (c : Ctx) (k : Key) (v : JSVal), (withValue c k v).value k = v)
    ∧ (∀ (c : Ctx) (k : Key), (withValue c k .null).value k = .null ∧ JSVal.null ≠ JSVal.undefv) := by
  have hmain : ∀ (c : Ctx) (k : Key), c.value k = nearestWriteValue c k := by
    intro c
    induction c with
    | nullCtx => intro k; rfl
    | base p ih => intro k; simpa [Ctx.value, nearestWriteValue, chainWrites] using ih k
    | valueNode key v p ih =>
      intro k
      by_cases hk : k = key
      · subst hk
        simp [Ctx.value, nearestWriteValue, chainWrites, List.find?]
      · have hk2 : ¬(key = k) := fun h => hk h.symm
        simp only [Ctx.value, nearestWriteValue, chainWrites, List.find?, hk, hk2,
          if_false, decide_eq_true_eq]
        simpa [nearestWriteValue] using ih k
    | cancelNode clr p ih =>
      intro k
      simpa [Ctx.value, nearestWriteValue, chainWrites] using ih k
  refine ⟨hmain, ?_, ?_, ?_⟩
  · intro c k hall
    rw [hmain c k]
    unfold nearestWriteValue
    have hnone : (chainWrites c).find? (fun e => e.1 = k) = none := by
      rw [List.find?_eq_none]
      intro x hx
      have := (List.all_eq_true.mp hall) x hx
      simpa using this
    rw [hnone]
  · intro c k v
    simp [withValue, Ctx.value]
  · intro c k
    exact ⟨by simp [withValue, Ctx.value], by simp⟩

/-- Concrete run of claim C5: a key written nowhere reads as undefined; a
key written twice reads the child-side value; a stored null reads back as
null. -/
theorem ctx_value_chain_lookup_witness :
    (Ctx.valueNode (.strKey "a") (.numv 1) background).value (.strKey "b") = .undefv
    ∧ (withValue (withValue background (.strKey "a") (.numv 1)) (.strKey "a") (.numv 2)).value
        (.strKey "a") = .numv 2
    ∧ (withValue background (.strKey "n") .null).value (.strKey "n") = .null := by
  refine ⟨?_, ?_, ?_⟩
  · exact ctx_value_chain_lookup.2.1 (Ctx.valueNode (.strKey "a") (.numv 1) background)
      (.strKey "b") (by decide)
  · exact ctx_value_chain_lookup.2.2.1 (withValue background (.strKey "a") (.numv 1))
      (.strKey "a") (.numv 2)
  · exact (ctx_value_chain_lookup.2.2.2 background (.strKey "n")).1

/-- Claim C9 as amended: create returns its input itself exactly when the
input satisfies the target predicate and is an Error instance; a
decorated non-Error object satisfies the predicate but is wrapped, not
returned. This theorem proves the amended identity-preservation half. -/
theorem create_preserves_typed_error_instances :
    ∀ (x : JSVal),
      (CanceledError.is x = true → x.isErrorInstance = true → CanceledError.create x = some x)
      ∧ (DeadlineError.is x = true → x.isErrorInstance = true → DeadlineError.create x = some x) := by
  intro x
  constructor
  · intro h1 h2
    simp [CanceledError.create, h1, h2]
  · intro h1 h2
    simp [DeadlineError.create, h1, h2]

/-- Concrete run of claim C9: a decorated plain Error instance is returned
by create as itself, for both error kinds. -/
theorem create_preserves_typed_error_instances_witness :
    CanceledError.create (.errObj "Error" "bummer" .undefv true false) =
      some (.errObj "Error" "bummer" .undefv true false)
    ∧ DeadlineError.create (.errObj "Error" "worse" .undefv true true) =
      some (.errObj "Error" "worse" .undefv true true) :=
  ⟨(create_preserves_typed_error_instances (.errObj "Error" "bummer" .undefv true false)).1
      (by decide) (by decide),
    (create_preserves_typed_error_instances (.errObj "Error" "worse" .undefv true true)).2
      (by decide) (by decide)⟩

/-- Counterexample to claim C9 as frozen: a decorated plain object (not an
Error instance) satisfies the predicate, yet create returns successfully
with a different value than the input, for both error kinds. -/
theorem create_wraps_decorated_non_error :
    CanceledError.is (.plainObj 0 true false) = true
    ∧ CanceledError.create (.plainObj 0 true false) =
        some (CanceledError.mkErr "" (.plainObj 0 true false))
    ∧ CanceledError.create (.plainObj 0 true false) ≠ some (.plainObj 0 true false)
    ∧ DeadlineError.is (.plainObj 1 true true) = true
    ∧ DeadlineError.create (.plainObj 1 true true) =
        some (DeadlineError.mkErr "" (.plainObj 1 true true))
    ∧ DeadlineError.create (.plainObj 1 true true) ≠ some (.plainObj 1 true true) := by
  decide

/-- Claim C7: with a fired Canceler on the context, withCancel and
withDeadline both return the context itself (the very same node) together
with a no-op cancel function, and running that no-op cancel function
leaves any world untouched. -/
theorem with_ops_short_circuit_on_fired_parent :
    ∀ (w : World) (ctx : Ctx) (p : Nat) (pc : CancState),
      ctx.canceler = some p → w.cancs[p]? = some pc → pc.canceled = true →
      withCancel w ctx = (ctx, .noop, w)
      ∧ (∀ (fuel : Nat) (d now : Int), withDeadline fuel w ctx d now = some (ctx, .noop, w))
      ∧ (∀ (w2 : World) (fuel : Nat) (r : JSVal), wexec (fuel + 1) (.wrunCFn .noop r) w2 = some w2) := by
  intro w ctx p pc hcl hg hc
  have hcc : w.ctxCanceled ctx = true := by
    simp [World.ctxCanceled, hcl, hg, hc]
  refine ⟨?_, ?_, ?_⟩
  · simp [withCancel, hcl, hg, hc]
  · intro fuel d now
    simp [withDeadline, hcc]
  · intro w2 fuel r
    simp [wexec]

/-- Concrete run of claim C7: a one-node world with a fired canceler. -/
theorem with_ops_short_circuit_on_fired_parent_witness :
    withCancel ⟨[⟨[], true, false, some (CanceledError.mkErr "" .undefv)⟩], [], []⟩
        (Ctx.cancelNode 0 .nullCtx) =
      (Ctx.cancelNode 0 .nullCtx, .noop,
        ⟨[⟨[], true, false, some (CanceledError.mkErr "" .undefv)⟩], [], []⟩)
    ∧ withDeadline 9 ⟨[⟨[], true, false, some (CanceledError.mkErr "" .undefv)⟩], [], []⟩
        (Ctx.cancelNode 0 .nullCtx) 50 0 =
      some (Ctx.cancelNode 0 .nullCtx, .noop,
        ⟨[⟨[], true, false, some (CanceledError.mkErr "" .undefv)⟩], [], []⟩)
    ∧ wexec 1 (.wrunCFn .noop (.strv "r")) w0 = some w0 := by
  obtain ⟨h1, h2, h3⟩ := with_ops_short_circuit_on_fired_parent
    ⟨[⟨[], true, false, some (CanceledError.mkErr "" .undefv)⟩], [], []⟩
    (Ctx.cancelNode 0 .nullCtx) 0 ⟨[], true, false, some (CanceledError.mkErr "" .undefv)⟩
    rfl rfl rfl
  exact ⟨h1, h2 9 50 0, h3 w0 0 (.strv "r")⟩

/-- Setting a position of a list to the value it already holds changes
nothing. -/
theorem list_set_self {α : Type} : ∀ (l : List α) (i : Nat) (a : α),
    l[i]? = some a → l.set i a = l := by
  intro l
  induction l with
  | nil => intro i a h; simp at h
  | cons x t ih =>
    intro i a h
    cases i with
    | zero => simp at h; simp [h]
    | succ j =>
      simp at h
      simp [ih j a h]

/-- Replacing the callback list of one canceler leaves the captured errors
of a world untouched. -/
theorem map_err_set : ∀ (l : List CancState) (i : Nat) (c : CancState) (x : List Nat),
    l[i]? = some c →
    (l.set i { c with callbacks := x }).map (fun d => d.err) = l.map (fun d => d.err) := by
  intro l
  induction l with
  | nil => intro i c x h; simp at h
  | cons a t ih =>
    intro i c x h
    cases i with
    | zero => simp at h; subst h; simp
    | succ j =>
      simp at h
      simp [ih j c x h]

/-- withCancel never touches the timers of the world. -/
theorem withCancel_timers_eq (w : World) (ctx : Ctx) :
    (withCancel w ctx).2.2.timers = w.timers := by
  unfold withCancel
  cases hcl : ctx.canceler with
  | none => simp
  | some p =>
    cases hg : w.cancs[p]? with
    | none => simp [hg]
    | some pc =>
      by_cases hc : pc.canceled = true
      · simp [hg, hc]
      · simp only [hg, hc, if_false, Bool.false_eq_true]
        unfold World.addCallbackAt
        split <;> simp [World.setCanc]

/-- The context returned by withCancel reads values exactly as its
argument does. -/
theorem withCancel_fst_value (w : World) (ctx : Ctx) (k : Key) :
    ((withCancel w ctx).1).value k = ctx.value k := by
  unfold withCancel
  cases hcl : ctx.canceler with
  | none => simp [Ctx.value]
  | some p =>
    cases hg : w.cancs[p]? with
    | none => simp [hg, Ctx.value]
    | some pc =>
      by_cases hc : pc.canceled = true
      · simp [hg, hc]
      · simp [hg, hc, Ctx.value]

/-- withCancel leaves every captured error alone: it either returns the
world unchanged or appends one fresh unfired canceler. -/
theorem withCancel_errs_map (w : World) (ctx : Ctx) :
    (withCancel w ctx).2.2.cancs.map (fun c => c.err) = w.cancs.map (fun c => c.err)
    ∨ (withCancel w ctx).2.2.cancs.map (fun c => c.err) = w.cancs.map (fun c => c.err) ++ [none] := by
  unfold withCancel
  cases hcl : ctx.canceler with
  | none => right; simp [Canceler.fresh]
  | some p =>
    cases hg : w.cancs[p]? with
    | none => right; simp [hg, Canceler.fresh]
    | some pc =>
      by_cases hc : pc.canceled = true
      · left; simp [hg, hc]
      · right
        have hp : p < w.cancs.length := (List.getElem?_eq_some.mp hg).1
        have hg2 : (w.cancs ++ [Canceler.fresh])[p]? = some pc := by
          simp [List.getElem?_append, hp, hg]
        simp only [hg, hc, if_false, Bool.false_eq_true]
        unfold World.addCallbackAt
        simp only [hg2, World.setCanc]
        by_cases hmem : w.cbs.length ∈ pc.callbacks
        · simp only [Canceler.addCallback, hmem, if_true, if_pos]
          rw [list_set_self _ _ _ hg2]
          simp [Canceler.fresh]
        · simp only [Canceler.addCallback, hmem, if_false]
          rw [map_err_set _ _ _ _ hg2]
          simp [Canceler.fresh]

/-- Claim C8 as amended: when the chain already carries a deadline
strictly earlier than the new one, withDeadline degrades to exactly
withCancel of the same context and world: no timer is armed, no new
deadline value is attached (the returned context still reads the existing
deadline), and no error, in particular no DeadlineError, is produced by
the call (the captured errors of the world are untouched apart from one
fresh unfired canceler). -/
theorem withDeadline_degrades_on_earlier_deadline :
    ∀ (fuel : Nat) (w : World) (ctx : Ctx) (e t now : Int),
      getDeadline ctx = .dateObj e → e < t →
      withDeadline fuel w ctx t now = some (withCancel w ctx)
      ∧ (withCancel w ctx).2.2.timers = w.timers
      ∧ ((withCancel w ctx).1).value ctxKeyDeadline = .dateObj e
      ∧ ((withCancel w ctx).2.2.cancs.map (fun c => c.err) = w.cancs.map (fun c => c.err)
         ∨ (withCancel w ctx).2.2.cancs.map (fun c => c.err) = w.cancs.map (fun c => c.err) ++ [none]) := by
  intro fuel w ctx e t now hgd he
  have hdeg : withDeadline fuel w ctx t now = some (withCancel w ctx) := by
    by_cases hcc : w.ctxCanceled ctx = true
    · have hwc : withCancel w ctx = (ctx, .noop, w) := by
        unfold World.ctxCanceled at hcc
        cases hcl : ctx.canceler with
        | none => simp only [hcl] at hcc; cases hcc
        | some p =>
          simp only [hcl] at hcc
          cases hg : w.cancs[p]? with
          | none => simp only [hg] at hcc; cases hcc
          | some pc =>
            simp only [hg] at hcc
            simp [withCancel, hcl, hg, hcc]
      rw [hwc]
      simp [withDeadline, hcc]
    · have hcc2 : w.ctxCanceled ctx = false := by
        cases hv : w.ctxCanceled ctx with
        | false => rfl
        | true => exact absurd hv hcc
      simp [withDeadline, hcc2, hgd, he]
  refine ⟨hdeg, withCancel_timers_eq w ctx, ?_, withCancel_errs_map w ctx⟩
  rw [withCancel_fst_value]
  exact hgd

/-- Concrete run of claim C8 as amended: a later deadline under an
earlier pending one degrades to plain withCancel. -/
theorem withDeadline_degrades_on_earlier_deadline_witness :
    withDeadline 10
        ⟨[⟨[], false, false, none⟩], [], [⟨false, .dlDirect 0 0⟩]⟩
        (Ctx.cancelNode 0 (Ctx.valueNode ctxKeyDeadline (.dateObj 100) background)) 200 0 =
      some (withCancel ⟨[⟨[], false, false, none⟩], [], [⟨false, .dlDirect 0 0⟩]⟩
        (Ctx.cancelNode 0 (Ctx.valueNode ctxKeyDeadline (.dateObj 100) background)))
    ∧ (withCancel ⟨[⟨[], false, false, none⟩], [], [⟨false, .dlDirect 0 0⟩]⟩
        (Ctx.cancelNode 0 (Ctx.valueNode ctxKeyDeadline (.dateObj 100) background))).2.2.timers =
      [⟨false, .dlDirect 0 0⟩] := by
  obtain ⟨h1, h2, h3, h4⟩ := withDeadline_degrades_on_earlier_deadline 10
    ⟨[⟨[], false, false, none⟩], [], [⟨false, .dlDirect 0 0⟩]⟩
    (Ctx.cancelNode 0 (Ctx.valueNode ctxKeyDeadline (.dateObj 100) background)) 100 200 0 rfl (by decide)
  exact ⟨h1, h2⟩

/-- Counterexample to claim C8 as frozen: with an existing deadline equal
to the new one, withDeadline does not degrade: it arms a second timer and
attaches a second deadline value node, unlike withCancel. -/
theorem withDeadline_equal_deadline_not_redundant :
    withDeadline 10 w0 background 100 0 =
      some (Ctx.cancelNode 0 (Ctx.valueNode ctxKeyDeadline (.dateObj 100) background),
        .dlDirect 0 0,
        ⟨[⟨[], false, false, none⟩], [], [⟨false, .dlDirect 0 0⟩]⟩)
    ∧ (withDeadline 10
        ⟨[⟨[], false, false, none⟩], [], [⟨false, .dlDirect 0 0⟩]⟩
        (Ctx.cancelNode 0 (Ctx.valueNode ctxKeyDeadline (.dateObj 100) background)) 100 0).map
        (fun r => r.2.2.timers.length) = some 2
    ∧ (withDeadline 10
        ⟨[⟨[], false, false, none⟩], [], [⟨false, .dlDirect 0 0⟩]⟩
        (Ctx.cancelNode 0 (Ctx.valueNode ctxKeyDeadline (.dateObj 100) background)) 100 0).map
        (fun r => getDeadline r.1) =
      some (.dateObj 100)
    ∧ withDeadline 10
        ⟨[⟨[], false, false, none⟩], [], [⟨false, .dlDirect 0 0⟩]⟩
        (Ctx.cancelNode 0 (Ctx.valueNode ctxKeyDeadline (.dateObj 100) background)) 100 0 ≠
      some (withCancel ⟨[⟨[], false, false, none⟩], [], [⟨false, .dlDirect 0 0⟩]⟩
        (Ctx.cancelNode 0 (Ctx.valueNode ctxKeyDeadline (.dateObj 100) background))) := by
  refine ⟨by decide, by decide, by decide, by decide⟩

/-- Claim C1 evaluated on the code: withDeadline with a past deadline
returns an already-canceled context, but its captured cause is the plain
default CanceledError, not a DeadlineError, because the source fires its
cancel function with no reason; likewise when the armed timer elapses.
This contradicts the specification and the repository test expecting
DeadlineError.is to hold for the timed-out cause. -/
theorem withDeadline_cause_not_deadline_error :
    withDeadline 5 w0 background 5 10 =
      some (Ctx.cancelNode 0 (Ctx.valueNode ctxKeyDeadline (.dateObj 5) background), .plain 0,
        ⟨[⟨[], true, false, some (CanceledError.mkErr "" .undefv)⟩], [], []⟩)
    ∧ World.ctxCanceled ⟨[⟨[], true, false, some (CanceledError.mkErr "" .undefv)⟩], [], []⟩
        (Ctx.cancelNode 0 (Ctx.valueNode ctxKeyDeadline (.dateObj 5) background)) = true
    ∧ CanceledError.is (CanceledError.mkErr "" .undefv) = true
    ∧ DeadlineError.is (CanceledError.mkErr "" .undefv) = false
    ∧ withDeadline 5 w0 background 100 10 =
      some (Ctx.cancelNode 0 (Ctx.valueNode ctxKeyDeadline (.dateObj 100) background), .dlDirect 0 0,
        ⟨[Canceler.fresh], [], [⟨false, .dlDirect 0 0⟩]⟩)
    ∧ wexec 10 (.wtimer 0) ⟨[Canceler.fresh], [], [⟨false, .dlDirect 0 0⟩]⟩ =
      some ⟨[⟨[], true, false, some (CanceledError.mkErr "" .undefv)⟩], [], [⟨true, .dlDirect 0 0⟩]⟩ := by
  refine ⟨by decide, by decide, by decide, by decide, by decide, by decide⟩

/-- Claim C4 evaluated on the code: the withCancel cascade does carry the
parent cause to the child unchanged (the CanceledError built from the
reason string boom reaches the child identically), but the withDeadline
cascade drops it: its clearAndCancel closure ignores the received cause
and fires the child with no reason, so the deadline child captures a
fresh default CanceledError different from the parent cause. The pending
timer is cleared as claimed. -/
theorem cascade_cause_dropped_for_deadline_child :
    withCancel ⟨[Canceler.fresh], [], []⟩ (Ctx.cancelNode 0 .nullCtx) =
      (Ctx.cancelNode 1 (Ctx.cancelNode 0 .nullCtx), .wrapped 0 0 1,
        ⟨[⟨[0], false, false, none⟩, Canceler.fresh], [.cfnOf 1], []⟩)
    ∧ wexec 10 (.wrunCFn (.plain 0) (.strv "boom"))
        ⟨[⟨[0], false, false, none⟩, Canceler.fresh], [.cfnOf 1], []⟩ =
      some ⟨[⟨[], true, false, some (CanceledError.mkErr "boom" .undefv)⟩,
             ⟨[], true, false, some (CanceledError.mkErr "boom" .undefv)⟩], [.cfnOf 1], []⟩
    ∧ withDeadline 5 ⟨[Canceler.fresh], [], []⟩ (Ctx.cancelNode 0 .nullCtx) 600000 0 =
      some (Ctx.cancelNode 1 (Ctx.valueNode ctxKeyDeadline (.dateObj 600000) (Ctx.cancelNode 0 .nullCtx)),
        .dlWrapped 0 0 0 1,
        ⟨[⟨[0], false, false, none⟩, Canceler.fresh], [.clearAndCancel 0 1],
          [⟨false, .dlWrapped 0 0 0 1⟩]⟩)
    ∧ wexec 10 (.wrunCFn (.plain 0) (.strv "boom"))
        ⟨[⟨[0], false, false, none⟩, Canceler.fresh], [.clearAndCancel 0 1],
          [⟨false, .dlWrapped 0 0 0 1⟩]⟩ =
      some ⟨[⟨[], true, false, some (CanceledError.mkErr "boom" .undefv)⟩,
             ⟨[], true, false, some (CanceledError.mkErr "" .undefv)⟩],
            [.clearAndCancel 0 1], [⟨true, .dlWrapped 0 0 0 1⟩]⟩
    ∧ CanceledError.mkErr "" .undefv ≠ CanceledError.mkErr "boom" .undefv := by
  refine ⟨by decide, by decide, by decide, by decide, by decide⟩

/-- Setting the appended position of a concatenation replaces the appended
element. -/
theorem list_set_concat {α : Type} : ∀ (l : List α) (a b : α),
    (l ++ [a]).set l.length b = l ++ [b] := by
  intro l
  induction l with
  | nil => intro a b; rfl
  | cons x t ih => intro a b; simp [List.set, ih]

/-- Erasing a freshly appended element recovers the original list. -/
theorem list_erase_concat_not_mem : ∀ (l : List Nat) (x : Nat),
    x ∉ l → (l ++ [x]).erase x = l := by
  intro l
  induction l with
  | nil => intro x _; simp
  | cons a t ih =>
    intro x hx
    have hax : ¬(a = x) := fun h => hx (by simp [h])
    have hxt : x ∉ t := fun h => hx (by simp [h])
    simp only [List.cons_append, List.erase_cons]
    have : (a == x) = false := by simp [hax]
    rw [this]
    simp [ih x hxt]

/-- Reading the position just set. -/
theorem list_getElem_set_self {α : Type} : ∀ (l : List α) (i : Nat) (a : α),
    i < l.length → (l.set i a)[i]? = some a := by
  intro l
  induction l with
  | nil => intro i a h; simp at h
  | cons x t ih =>
    intro i a h
    cases i with
    | zero => simp
    | succ j =>
      simp only [List.set]
      simpa using ih j a (by simpa using h)

/-- Setting a position twice keeps only the second write. -/
theorem list_set_set {α : Type} : ∀ (l : List α) (i : Nat) (a b : α),
    (l.set i a).set i b = l.set i b := by
  intro l
  induction l with
  | nil => intro i a b; rfl
  | cons x t ih =>
    intro i a b
    cases i with
    | zero => rfl
    | succ j => simp [List.set, ih]

/-- One create-then-cancel cycle under a live parent canceler: the world
gains exactly one resolved child canceler and the registered closure,
while the parent canceler (its callback list included) is restored to its
prior state. -/
theorem cycleOnce_spec (w : World) (ctx : Ctx) (p : Nat) (pc : CancState)
    (hwf : wfWorld w = true) (hcl : ctx.canceler = some p)
    (hg : w.cancs[p]? = some pc) (hc : pc.canceled = false) :
    cycleOnce ctx w =
      some ⟨w.cancs ++ [⟨[], true, false, some (CanceledError.mkErr "" .undefv)⟩],
            w.cbs ++ [.cfnOf w.cancs.length], w.timers⟩ := by
  have hp : p < w.cancs.length := (List.getElem?_eq_some.mp hg).1
  have hpc_mem : pc ∈ w.cancs := by
    obtain ⟨h1, h2⟩ := List.getElem?_eq_some.mp hg
    exact h2 ▸ List.getElem_mem h1
  have hmem : w.cbs.length ∉ pc.callbacks := by
    intro hmemx
    have hall := (List.all_eq_true.mp hwf) pc hpc_mem
    have hlt := (List.all_eq_true.mp hall) _ hmemx
    simp at hlt
  have hg2 : (w.cancs ++ [Canceler.fresh])[p]? = some pc := by
    simp [List.getElem?_append, hp, hg]
  have hWC : withCancel w ctx =
      (Ctx.cancelNode w.cancs.length ctx, .wrapped p w.cbs.length w.cancs.length,
        ⟨(w.cancs ++ [Canceler.fresh]).set p
            { pc with callbacks := pc.callbacks ++ [w.cbs.length] },
          w.cbs ++ [.cfnOf w.cancs.length], w.timers⟩) := by
    unfold withCancel
    rw [hcl]
    simp only [hg, hc, Bool.false_eq_true, if_false]
    unfold World.addCallbackAt
    simp only [hg2, World.setCanc, Canceler.addCallback, hmem, if_false]
    rw [hc]
  have hoffpc : Canceler.off { pc with callbacks := pc.callbacks ++ [w.cbs.length] }
      w.cbs.length = pc := by
    unfold Canceler.off
    rw [list_erase_concat_not_mem _ _ hmem]
  have hoffA : (World.offAt
      ⟨(w.cancs ++ [Canceler.fresh]).set p
          { pc with callbacks := pc.callbacks ++ [w.cbs.length] },
        w.cbs ++ [.cfnOf w.cancs.length], w.timers⟩ p w.cbs.length) =
      ⟨w.cancs ++ [Canceler.fresh], w.cbs ++ [.cfnOf w.cancs.length], w.timers⟩ := by
    unfold World.offAt
    have hsp : ((w.cancs ++ [Canceler.fresh]).set p
        { pc with callbacks := pc.callbacks ++ [w.cbs.length] })[p]? =
        some { pc with callbacks := pc.callbacks ++ [w.cbs.length] } := by
      refine list_getElem_set_self _ _ _ ?_
      simp only [List.length_append, List.length_singleton]
      exact Nat.lt_succ_of_lt hp
    simp only [hsp, hoffpc, World.setCanc]
    rw [list_set_set, list_set_self _ _ _ hg2]
  have hcr : CanceledError.create JSVal.undefv = some (CanceledError.mkErr "" JSVal.undefv) := rfl
  have hfrL : (w.cancs ++ [(⟨[], false, false, none⟩ : CancState)])[w.cancs.length]? =
      some (⟨[], false, false, none⟩ : CancState) := by
    simp [List.getElem?_append]
  have hset1 : ((w.cancs ++ [(⟨[], false, false, none⟩ : CancState)]).set w.cancs.length
      (⟨[], true, true, some (CanceledError.mkErr "" JSVal.undefv)⟩ : CancState))[w.cancs.length]? =
      some (⟨[], true, true, some (CanceledError.mkErr "" JSVal.undefv)⟩ : CancState) :=
    list_getElem_set_self _ _ _ (by simp)
  unfold cycleOnce
  rw [hWC]
  show wexec 2 (.wcancel w.cancs.length .undefv)
      (World.offAt
        ⟨(w.cancs ++ [Canceler.fresh]).set p
            { pc with callbacks := pc.callbacks ++ [w.cbs.length] },
          w.cbs ++ [.cfnOf w.cancs.length], w.timers⟩ p w.cbs.length) = _
  rw [hoffA]
  simp only [wexec, Canceler.fresh, World.setCanc, hfrL, hcr]
  simp only [hset1]
  simp only [list_set_set]
  rw [list_set_concat]
  simp

/-- The build branch of withCancel under a live parent canceler, as one
equation. -/
theorem withCancel_live_parent (w : World) (ctx : Ctx) (p : Nat) (pc : CancState)
    (hcl : ctx.canceler = some p) (hg : w.cancs[p]? = some pc) (hc : pc.canceled = false)
    (hmem : w.cbs.length ∉ pc.callbacks) :
    withCancel w ctx =
      (Ctx.cancelNode w.cancs.length ctx, .wrapped p w.cbs.length w.cancs.length,
        ⟨(w.cancs ++ [Canceler.fresh]).set p
            { pc with callbacks := pc.callbacks ++ [w.cbs.length] },
          w.cbs ++ [.cfnOf w.cancs.length], w.timers⟩) := by
  have hp : p < w.cancs.length := (List.getElem?_eq_some.mp hg).1
  have hg2 : (w.cancs ++ [Canceler.fresh])[p]? = some pc := by
    simp [List.getElem?_append, hp, hg]
  unfold withCancel
  rw [hcl]
  simp only [hg, hc, Bool.false_eq_true, if_false]
  unfold World.addCallbackAt
  simp only [hg2, World.setCanc, Canceler.addCallback, hmem, if_false]
  rw [hc]

/-- A create-then-cancel cycle preserves well-formedness of the world. -/
theorem wfWorld_cycle_preserved (w : World) (hwf : wfWorld w = true) :
    wfWorld ⟨w.cancs ++ [⟨[], true, false, some (CanceledError.mkErr "" .undefv)⟩],
             w.cbs ++ [.cfnOf w.cancs.length], w.timers⟩ = true := by
  unfold wfWorld at hwf ⊢
  rw [List.all_eq_true] at hwf ⊢
  intro c hcmem
  rw [List.all_eq_true]
  intro cb hcb
  simp only [List.mem_append, List.mem_singleton] at hcmem
  rcases hcmem with hcmem | hcmem
  · have hold := (List.all_eq_true.mp (hwf c hcmem)) cb hcb
    simp only [decide_eq_true_eq] at hold ⊢
    simp only [List.length_append, List.length_singleton]
    exact Nat.lt_succ_of_lt hold
  · subst hcmem
    simp at hcb

/-- Claim C6: under a live parent canceler, withCancel grows the parent
listener set by exactly one (appending the fresh cascade callback);
running the returned cancel function restores the parent canceler exactly
(the listener count drops back by one); and any number of repeated
create-then-cancel cycles leaves the parent canceler state, its listener
list included, identical to the original. -/
theorem withCancel_listener_balance :
    ∀ (w : World) (ctx : Ctx) (p : Nat) (pc : CancState),
      wfWorld w = true → ctx.canceler = some p → w.cancs[p]? = some pc → pc.canceled = false →
      ((withCancel w ctx).2.2.cancs[p]? =
          some { pc with callbacks := pc.callbacks ++ [w.cbs.length] }
        ∧ Canceler.size { pc with callbacks := pc.callbacks ++ [w.cbs.length] } =
            Canceler.size pc + 1)
      ∧ (∃ w2, cycleOnce ctx w = some w2 ∧ w2.cancs[p]? = some pc)
      ∧ (∀ (n : Nat) (w2 : World), cycleN ctx n w = some w2 → w2.cancs[p]? = some pc) := by
  have hstep : ∀ (w : World) (pc : CancState) (p : Nat), w.cancs[p]? = some pc →
      (⟨w.cancs ++ [⟨[], true, false, some (CanceledError.mkErr "" .undefv)⟩],
        w.cbs ++ [.cfnOf w.cancs.length], w.timers⟩ : World).cancs[p]? = some pc := by
    intro w pc p hg
    have hp : p < w.cancs.length := (List.getElem?_eq_some.mp hg).1
    simpa [List.getElem?_append, hp] using hg
  have hrep : ∀ (ctx : Ctx) (p : Nat) (pc : CancState), ctx.canceler = some p →
      pc.canceled = false →
      ∀ (n : Nat) (w w2 : World), wfWorld w = true → w.cancs[p]? = some pc →
      cycleN ctx n w = some w2 → w2.cancs[p]? = some pc := by
    intro ctx p pc hcl hc n
    induction n with
    | zero =>
      intro w w2 _ hg h
      cases h
      exact ‹w.cancs[p]? = some pc›
    | succ m ih =>
      intro w w2 hwf hg h
      unfold cycleN at h
      rw [cycleOnce_spec w ctx p pc hwf hcl hg hc] at h
      simp only at h
      exact ih _ w2 (wfWorld_cycle_preserved w hwf) (hstep w pc p hg) h
  intro w ctx p pc hwf hcl hg hc
  have hp : p < w.cancs.length := (List.getElem?_eq_some.mp hg).1
  have hpc_mem : pc ∈ w.cancs := by
    obtain ⟨h1, h2⟩ := List.getElem?_eq_some.mp hg
    exact h2 ▸ List.getElem_mem h1
  have hmem : w.cbs.length ∉ pc.callbacks := by
    intro hmemx
    have hall := (List.all_eq_true.mp hwf) pc hpc_mem
    have hlt := (List.all_eq_true.mp hall) _ hmemx
    simp at hlt
  refine ⟨⟨?_, ?_⟩, ⟨_, cycleOnce_spec w ctx p pc hwf hcl hg hc, hstep w pc p hg⟩, ?_⟩
  · rw [withCancel_live_parent w ctx p pc hcl hg hc hmem]
    refine list_getElem_set_self _ _ _ ?_
    simp only [List.length_append, List.length_singleton]
    exact Nat.lt_succ_of_lt hp
  · simp [Canceler.size]
  · exact fun n w2 h => hrep ctx p pc hcl hc n w w2 hwf hg h

/-- Concrete run of claim C6: one root cancel context, one child created
and canceled, listener count one then zero; ten full cycles leave the
parent canceler in its initial state. -/
theorem withCancel_listener_balance_witness :
    (withCancel ⟨[Canceler.fresh], [], []⟩ (Ctx.cancelNode 0 .nullCtx)).2.2.cancs[0]? =
      some ⟨[0], false, false, none⟩
    ∧ (∃ w2, cycleOnce (Ctx.cancelNode 0 .nullCtx) ⟨[Canceler.fresh], [], []⟩ = some w2
        ∧ w2.cancs[0]? = some Canceler.fresh)
    ∧ (∀ w2, cycleN (Ctx.cancelNode 0 .nullCtx) 10 ⟨[Canceler.fresh], [], []⟩ = some w2 →
        w2.cancs[0]? = some Canceler.fresh) := by
  obtain ⟨⟨h1, _⟩, h2, h3⟩ := withCancel_listener_balance ⟨[Canceler.fresh], [], []⟩
    (Ctx.cancelNode 0 .nullCtx) 0 Canceler.fresh rfl rfl rfl rfl
  refine ⟨?_, h2, fun w2 h => h3 10 w2 h⟩
  simpa [Canceler.fresh] using h1
